import Mathlib

/-!
Verification development for a streaming AMM pool indexer and cyclic
arbitrage prospector written in Go.  The relevant parts of the program are
shallowly embedded below: pure computations become Lean functions, the
SQLite pool table becomes an explicit list of rows, channel-backed queues
become lists, chain view calls become an explicit oracle, and Go's
`float64` / `big.Float` arithmetic is idealised as exact rational
arithmetic over `ℚ`.  `big.Int` values become `ℤ` (with `nil` pointers
modelled as `Option.none`), and Go strings, token addresses and pool
addresses (always handled through their canonical `common.Address.Hex`
rendering, which is injective) become Lean `String`s.
-/

namespace Claam

/-! ## Bounded drop-oldest queues (`BlockQueue.Publish`, `ArbitrageQueue.Publish`)

Both queues wrap a Go channel of capacity `cap`.  `Publish` tries a
non-blocking send; if the channel is full it performs a non-blocking
receive (discarding the oldest element) and then sends.  With a single
producer and no concurrent consumer the channel contents form a FIFO list,
and one publish is the function below.  `publish` is total: it never
blocks the producer and has no failure mode. -/

/-- One `Publish` step on a queue of capacity `cap` holding `q` (oldest
first): enqueue, discarding the oldest element first when full.  Embeds
both `BlockQueue.Publish` and `ArbitrageQueue.Publish`, whose bodies are
identical up to the element type. -/
def publish (cap : ℕ) (q : List α) (e : α) : List α :=
  if q.length < cap then q ++ [e] else q.drop 1 ++ [e]

/-- A whole single-producer publish sequence starting from an empty queue. -/
def publishAll (cap : ℕ) (es : List α) : List α :=
  es.foldl (publish cap) []

/-! ## Core data model

`poolDetail` is the central entity (addresses kept as their canonical hex
rendering, reserves as `Option ℤ` since Go keeps them behind possibly-nil
`*big.Int` pointers).  `graphEdge` is one directed hop through a pool;
the `FromIndex`/`ToIndex` fields of the Go struct are used only by the
superseded SCC revision and are omitted.  `arbitrageCircle` is an
enumerated cycle: the pools traversed plus the token sequence. -/

/-- Protocol name constant `ProtocolUniswapV1`. -/
def ProtocolUniswapV1 : String := "UniswapV1LikeSwap"

/-- Protocol name constant `ProtocolUniswapV2Like`. -/
def ProtocolUniswapV2Like : String := "UniswapV2LikeSwap"

/-- Protocol name constant `ProtocolUniswapV3`. -/
def ProtocolUniswapV3 : String := "UniswapV3Swap"

/-- Protocol name constant `ProtocolUniswapV4`. -/
def ProtocolUniswapV4 : String := "UniswapV4Swap"

/-- The `poolDetail` struct of the discoverer. -/
structure poolDetail where
  address : String
  token0 : String
  token1 : String
  fee : ℚ
  protocol : String
  reserve0 : Option ℤ
  reserve1 : Option ℤ
deriving DecidableEq

/-- The `graphEdge` struct of the arbitrage finder. -/
structure graphEdge where
  pool : poolDetail
  protocol : String
  fee : ℚ
  rate : ℚ
  fromToken : String
  toToken : String
deriving DecidableEq

/-- The `arbitrageCircle` struct: pools on the cycle plus token sequence. -/
structure arbitrageCircle where
  route : List poolDetail
  path : List String
deriving DecidableEq

/-- The `ArbitrageStep` struct published to the opportunity queue. -/
structure ArbitrageStep where
  pool : poolDetail
  fromToken : String
  toToken : String
  protocol : String
  fee : ℚ
deriving DecidableEq

/-- The `ArbitrageOpportunity` struct published to the opportunity queue. -/
structure ArbitrageOpportunity where
  path : List ArbitrageStep
  startToken : String
  initialAmount : ℚ
  estimatedReturn : ℚ
deriving DecidableEq

/-! ## Swap simulation (`ArbitrageFinder.simulatePath`, backtracking revision)

The backtracking revision is the later of the two finder revisions in the
repository (its `buildGraph` comment states the new algorithm replaces the
index graph).  Its `simulatePath` walks the path once, updating the
running amount per step; `float64` / `big.Float` arithmetic is idealised
as `ℚ`. -/

/-- The fee multiplier exactly as computed in the source:
`feeRatio := step.Fee / 100.0; feeMultiplier := 1000.0 - feeRatio*10`. -/
def codeFeeMultiplier (fee : ℚ) : ℚ :=
  1000 - fee / 100 * 10

/-- One step of `simulatePath`: `none` models the early `return 0, false`
(nil reserve, non-positive reserve, or non-positive output amount). -/
def simulateStep (step : graphEdge) (amount : ℚ) : Option ℚ :=
  match step.pool.reserve0, step.pool.reserve1 with
  | some r0, some r1 =>
    if r0 ≤ 0 ∨ r1 ≤ 0 then none
    else
      let next :=
        if step.pool.protocol = ProtocolUniswapV2Like ∨
            step.pool.protocol = ProtocolUniswapV3 ∨
            step.pool.protocol = ProtocolUniswapV4 then
          let rIn : ℚ := if step.fromToken = step.pool.token0 then r0 else r1
          let rOut : ℚ := if step.fromToken = step.pool.token0 then r1 else r0
          let amountInWithFee := amount * codeFeeMultiplier step.fee
          amountInWithFee * rOut / (rIn * 1000 + amountInWithFee)
        else amount * (1 - step.fee / 100)
      if next ≤ 0 then none else some next
  | _, _ => none

/-- The step loop of `simulatePath`. -/
def simulateSteps (amount : ℚ) : List graphEdge → Option ℚ
  | [] => some amount
  | step :: rest =>
    match simulateStep step amount with
    | none => none
    | some next => simulateSteps next rest

/-- `simulatePath` of the backtracking revision: final amount and the
profitability flag `profit >= minProfit`. -/
def simulatePath (initial : ℚ) (path : List graphEdge) (minProfit : ℚ) :
    ℚ × Bool :=
  if path = [] then (0, false)
  else
    match simulateSteps initial path with
    | none => (0, false)
    | some amount => (amount, decide (minProfit ≤ amount - initial))

/-- Stated from the spec for comparison with the code: the documented fee
multiplier, `fee_multiplier = 1000 − fee_percent × 10` (0.30% ⇒ 997). -/
def specFeeMultiplier (feePercent : ℚ) : ℚ :=
  1000 - feePercent * 10

/-- Stated from the spec for comparison with the code: the documented
V2 output amount,
`(amount_in × fee_multiplier × R_out) / (R_in × 1000 + amount_in × fee_multiplier)`. -/
def specAmountOut (feePercent amountIn rIn rOut : ℚ) : ℚ :=
  amountIn * specFeeMultiplier feePercent * rOut /
    (rIn * 1000 + amountIn * specFeeMultiplier feePercent)

/-! ## Cycle fingerprint (`hashPath`) -/

/-- The per-edge fingerprint token built by `hashPath`:
`edge.Protocol + ":" + edge.Pool.Address.Hex() + ":" + edge.FromToken.Hex() + "->" + edge.ToToken.Hex()`. -/
def hashItem (edge : graphEdge) : String :=
  edge.protocol ++ ":" ++ edge.pool.address ++ ":" ++ edge.fromToken ++
    "->" ++ edge.toToken

/-- `sort.Strings`: lexicographic sort, modelled via the canonical sorted
list of the multiset of items. -/
def sortStrings (l : List String) : List String :=
  Multiset.sort (fun a b => a ≤ b) (l : Multiset String)

/-- `strings.Join(items, "|")`. -/
def joinBar : List String → String
  | [] => ""
  | [a] => a
  | a :: rest => a ++ "|" ++ joinBar rest

/-- `hashPath`: the canonical fingerprint of a cycle. -/
def hashPath (path : List graphEdge) : String :=
  if path = [] then "" else joinBar (sortStrings (path.map hashItem))

/-- The quadruple of fields the fingerprint depends on.  Stated from the
spec to express the same-multiset-of-edges claim. -/
def edgeKey (e : graphEdge) : String × String × String × String :=
  (e.protocol, e.pool.address, e.fromToken, e.toToken)

/-- The fingerprint token as a function of the quadruple alone. -/
def keyItem (k : String × String × String × String) : String :=
  k.1 ++ ":" ++ k.2.1 ++ ":" ++ k.2.2.1 ++ "->" ++ k.2.2.2

/-- Reversing one edge (traverse the pool in the opposite direction).
Stated from the spec to express the reverse-traversal claim. -/
def reverseEdge (e : graphEdge) : graphEdge :=
  { e with fromToken := e.toToken, toToken := e.fromToken }

/-- Traversing a cycle in the reverse direction: reverse the edge order
and the direction of each edge.  Stated from the spec. -/
def reversePath (p : List graphEdge) : List graphEdge :=
  (p.map reverseEdge).reverse

/-- A field value drawn from the program's value domain (protocol name
constants and `common.Address.Hex()` renderings): it contains none of the
separator characters used by `hashItem` and `joinBar`. -/
def plainField (s : String) : Bool :=
  s.data.all (fun c => (c != ':') && (c != '-') && (c != '>') && (c != '|'))

/-! ## Cycle handling (`ArbitrageFinder.handleCircle`, backtracking revision) -/

/-- The rate computed in `handleCircle`: `1 - fee/100`, clamped to `1e-6`
when non-positive. -/
def clampRate (fee : ℚ) : ℚ :=
  let r := 1 - fee / 100
  if r ≤ 0 then 1 / 1000000 else r

/-- The edge list `handleCircle` builds from a circle: for every
`i < len(Path)-1`, pool `Route[i]` traversed from `Path[i]` to `Path[i+1]`. -/
def circleEdges : List poolDetail → List String → List graphEdge
  | pair :: pairs, t1 :: t2 :: ts =>
    { pool := pair, protocol := pair.protocol, fee := pair.fee,
      rate := clampRate pair.fee, fromToken := t1, toToken := t2 } ::
      circleEdges pairs (t2 :: ts)
  | _, _ => []

/-- `convertToOpportunity`. -/
def convertToOpportunity (path : List graphEdge) (startToken : String)
    (initialAmount estimated : ℚ) : ArbitrageOpportunity :=
  { path := path.map (fun edge =>
      { pool := edge.pool, fromToken := edge.fromToken,
        toToken := edge.toToken, protocol := edge.protocol,
        fee := edge.fee }),
    startToken := startToken, initialAmount := initialAmount,
    estimatedReturn := estimated }

/-- `handleCircle`: given the seen-paths set and a circle, decide whether
to publish.  Returns (published, updated seen-paths set, published
opportunity).  The Go code reads `path[0].FromToken` only on the publish
branch, where the path is provably non-empty; `head?` with default `""`
models that read. -/
def handleCircle (seenPaths : List String) (circle : arbitrageCircle)
    (initialAmount minProfit : ℚ) :
    Bool × List String × Option ArbitrageOpportunity :=
  if circle.route.length < 2 then (false, seenPaths, none)
  else
    let path := circleEdges circle.route circle.path
    let pathKey := hashPath path
    if pathKey ∈ seenPaths then (false, seenPaths, none)
    else
      match simulatePath initialAmount path minProfit with
      | (estimated, profitable) =>
        if profitable then
          (true, seenPaths ++ [pathKey],
            some (convertToOpportunity path
              (match path.head? with
               | some e => e.fromToken
               | none => "") initialAmount estimated))
        else (false, seenPaths, none)

/-! ## Cycle enumeration (`ArbitrageFinder.findArb`, backtracking revision)

`findArb` iterates over all pools, recursing with the chosen pool removed.
The recursion is embedded with an explicit fuel argument equal to the
length of the pool list, which the recursion maintains exactly (each
recursive call removes exactly one pool), keeping the function
structurally recursive and executable. -/

/-- Every way of picking one element out of a list, paired with the rest
of the list in original order (`pairs[:i] ++ pairs[i+1:]`). -/
def removals : List α → List (α × List α)
  | [] => []
  | a :: rest => (a, rest) :: (removals rest).map (fun pr => (pr.1, a :: pr.2))

/-- The dust floor `big.NewInt(1e18)`. -/
def minReserve : ℤ := 1000000000000000000

/-- The reserve guard of `findArb`: skip a pool whose reserves are nil or
below the dust floor. -/
def reservesAboveFloor (pair : poolDetail) : Bool :=
  (match pair.reserve0 with
   | none => false
   | some r => decide (minReserve ≤ r)) &&
  (match pair.reserve1 with
   | none => false
   | some r => decide (minReserve ≤ r))

/-- The body of `findArb`, with fuel.  Called with `fuel = pairs.length`. -/
def findArbGo : ℕ → List poolDetail → String → String → ℤ →
    List poolDetail → List String → List arbitrageCircle
  | 0, _, _, _, _, _, _ => []
  | fuel + 1, pairs, tokenIn, tokenOut, maxHops, currentPairs, path =>
    (removals pairs).flatMap (fun pr =>
      let pair := pr.1
      let rest := pr.2
      if pair.token0 ≠ tokenIn ∧ pair.token1 ≠ tokenIn then []
      else if reservesAboveFloor pair = false then []
      else
        let tempOut := if tokenIn = pair.token0 then pair.token1 else pair.token0
        let newPath := path ++ [tempOut]
        let newPairs := currentPairs ++ [pair]
        if tempOut = tokenOut ∧ 2 < path.length then
          [{ route := newPairs, path := newPath }]
        else if 1 < maxHops ∧ 1 < pairs.length then
          findArbGo fuel rest tempOut tokenOut (maxHops - 1) newPairs newPath
        else [])

/-- `findArb`: the fuel is the pool-list length, which every recursive
call maintains (it removes exactly one pool). -/
def findArb (pairs : List poolDetail) (tokenIn tokenOut : String)
    (maxHops : ℤ) (currentPairs : List poolDetail) (path : List String) :
    List arbitrageCircle :=
  findArbGo pairs.length pairs tokenIn tokenOut maxHops currentPairs path

/-- Stated from the spec for the simple-cycle claim: a token sequence is a
simple cycle when no token is visited twice except the shared endpoint. -/
def isSimpleCycle (path : List String) : Prop :=
  path.dropLast.Nodup

instance (path : List String) : Decidable (isSimpleCycle path) :=
  inferInstanceAs (Decidable path.dropLast.Nodup)

/-- Consistency of a route with its token sequence: each hop enters a pool
at one of its tokens and exits at the token `findArb` computes
(`Token1` if entering at `Token0`, else `Token0`). -/
def stepsConsistent : List poolDetail → List String → Bool
  | [], [_] => true
  | pair :: pairs, t1 :: t2 :: ts =>
    ((t1 == pair.token0) || (t1 == pair.token1)) &&
      (t2 == (if t1 = pair.token0 then pair.token1 else pair.token0)) &&
      stepsConsistent pairs (t2 :: ts)
  | _, _ => false

/-! ## Pool store (`PoolStore`)

The SQLite `pools` table is modelled as a list of rows in insertion
order.  Reserves are written as decimal strings of the big integers
(`nil` ⇒ `"0"`) and parsed back on read; since decimal rendering and
parsing are mutually inverse the TEXT columns are idealised as `ℤ`.
`CURRENT_TIMESTAMP` becomes an explicit `now` parameter. -/

/-- One row of the `pools` table. -/
structure PoolRow where
  id : String
  protocol : String
  token0 : String
  token1 : String
  fee : ℚ
  reserve0 : ℤ
  reserve1 : ℤ
  createdAt : ℕ
  updatedAt : ℕ
deriving DecidableEq

/-- The reserve value written by `InsertPoolIfNotExists`: `"0"` for a nil
pointer, the decimal rendering otherwise. -/
def reserveValue : Option ℤ → ℤ
  | none => 0
  | some v => v

/-- The `ON CONFLICT(id) DO UPDATE` clause: refresh only `reserve0`,
`reserve1` and `updated_at`. -/
def updateRow (row : PoolRow) (pool : poolDetail) (now : ℕ) : PoolRow :=
  { row with reserve0 := reserveValue pool.reserve0,
             reserve1 := reserveValue pool.reserve1,
             updatedAt := now }

/-- The freshly inserted row for a pool. -/
def newRow (pool : poolDetail) (now : ℕ) : PoolRow :=
  { id := pool.address, protocol := pool.protocol, token0 := pool.token0,
    token1 := pool.token1, fee := pool.fee,
    reserve0 := reserveValue pool.reserve0,
    reserve1 := reserveValue pool.reserve1,
    createdAt := now, updatedAt := now }

/-- `InsertPoolIfNotExists`: insert keyed by address; on conflict refresh
only `reserve0`, `reserve1` and `updated_at`. -/
def InsertPoolIfNotExists (db : List PoolRow) (pool : poolDetail)
    (now : ℕ) : List PoolRow :=
  if db.any (fun row => row.id == pool.address) then
    db.map (fun row => if row.id = pool.address then updateRow row pool now else row)
  else db ++ [newRow pool now]

/-- The `poolDetail` a row scans back to in `ListPools`. -/
def rowToPool (row : PoolRow) : poolDetail :=
  { address := row.id, token0 := row.token0, token1 := row.token1,
    fee := row.fee, protocol := row.protocol,
    reserve0 := some row.reserve0, reserve1 := some row.reserve1 }

/-- `ListPools`: scan every row. -/
def ListPools (db : List PoolRow) : List poolDetail :=
  db.map rowToPool

/-! ## Pool inspection (`PoolDiscoverer.inspectPool`)

The chain client is an oracle giving each view call's outcome; the
in-memory known-pools set is an explicit list of addresses.  The result
records the returned triple, the updated set and the contract view calls
performed (attempted calls included). -/

/-- The `protocolConfig` struct; the `ContractABI` pointer is modelled by
its only observed property, being nil or not. -/
structure protocolConfig where
  name : String
  staticFee : ℚ
  feeFromContract : Bool
  token0Method : String
  token1Method : String
  fixedToken0 : Option String
  fixedToken1 : Option String
  hasABI : Bool
deriving DecidableEq

/-- One contract view call made during inspection. -/
inductive ViewCall where
  | token (pool method : String)
  | fee (pool : String)
  | reserves (pool : String)
  | balance (token owner : String)
deriving DecidableEq

/-- Outcomes of the chain client's view calls. -/
structure ChainOracle where
  tokenCall : String → String → Except Unit String
  feeCall : String → Except Unit ℚ
  reservesCall : String → Except Unit (ℤ × ℤ)
  balanceCall : String → String → Except Unit ℤ

/-- The error cases on which `inspectPool` returns early. -/
inductive InspectErr where
  | missingABI
  | tokenCallFailed
  | feeCallFailed
deriving DecidableEq

/-- The observable outcome of one `inspectPool` call. -/
structure InspectResult where
  isNew : Bool
  pool : poolDetail
  err : Option InspectErr
  known : List String
  calls : List ViewCall
deriving DecidableEq

/-- The zero `poolDetail{}` returned on the early-exit paths. -/
def emptyPoolDetail : poolDetail :=
  { address := "", token0 := "", token1 := "", fee := 0, protocol := "",
    reserve0 := none, reserve1 := none }

/-- Token resolution: a fixed address when the descriptor has one,
otherwise the named view call (recorded even when it fails). -/
def resolveToken (oracle : ChainOracle) (poolAddr : String)
    (fixed : Option String) (method : String) :
    List ViewCall × Except InspectErr String :=
  match fixed with
  | some a => ([], .ok a)
  | none =>
    match oracle.tokenCall poolAddr method with
    | .ok t => ([ViewCall.token poolAddr method], .ok t)
    | .error _ => ([ViewCall.token poolAddr method], .error .tokenCallFailed)

/-- Fee resolution: `StaticFee`, or the `fee()` view call when
`FeeFromContract` is set. -/
def resolveFee (oracle : ChainOracle) (poolAddr : String)
    (cfg : protocolConfig) : List ViewCall × Except InspectErr ℚ :=
  if cfg.feeFromContract then
    match oracle.feeCall poolAddr with
    | .ok f => ([ViewCall.fee poolAddr], .ok f)
    | .error _ => ([ViewCall.fee poolAddr], .error .feeCallFailed)
  else ([], .ok cfg.staticFee)

/-- `inspectPool`: short-circuit on a known address, then resolve tokens,
fee and reserves; reserve failures substitute zeros instead of aborting;
the address joins the known-pools set only on the success path. -/
def inspectPool (oracle : ChainOracle) (known : List String)
    (logAddr : String) (cfg : protocolConfig) : InspectResult :=
  if logAddr ∈ known then
    { isNew := false, pool := emptyPoolDetail, err := none,
      known := known, calls := [] }
  else if cfg.hasABI = false then
    { isNew := false, pool := emptyPoolDetail, err := some .missingABI,
      known := known, calls := [] }
  else
    let token0Method := if cfg.token0Method = "" then "token0" else cfg.token0Method
    let token1Method := if cfg.token1Method = "" then "token1" else cfg.token1Method
    match resolveToken oracle logAddr cfg.fixedToken0 token0Method with
    | (calls0, .error e) =>
      { isNew := false, pool := emptyPoolDetail, err := some e,
        known := known, calls := calls0 }
    | (calls0, .ok token0) =>
      match resolveToken oracle logAddr cfg.fixedToken1 token1Method with
      | (calls1, .error e) =>
        { isNew := false, pool := emptyPoolDetail, err := some e,
          known := known, calls := calls0 ++ calls1 }
      | (calls1, .ok token1) =>
        match resolveFee oracle logAddr cfg with
        | (calls2, .error e) =>
          { isNew := false, pool := emptyPoolDetail, err := some e,
            known := known, calls := calls0 ++ calls1 ++ calls2 }
        | (calls2, .ok poolFee) =>
          let baseCalls := calls0 ++ calls1 ++ calls2
          let finish := fun (r0 r1 : ℤ) (resCalls : List ViewCall) =>
            { isNew := true,
              pool := { address := logAddr, token0 := token0,
                        token1 := token1, fee := poolFee,
                        protocol := cfg.name, reserve0 := some r0,
                        reserve1 := some r1 },
              err := none, known := known ++ [logAddr],
              calls := baseCalls ++ resCalls : InspectResult }
          if cfg.name = ProtocolUniswapV2Like then
            match oracle.reservesCall logAddr with
            | .ok (r0, r1) => finish r0 r1 [ViewCall.reserves logAddr]
            | .error _ => finish 0 0 [ViewCall.reserves logAddr]
          else if cfg.name = ProtocolUniswapV3 ∨ cfg.name = ProtocolUniswapV4 then
            let r0 := match oracle.balanceCall token0 logAddr with
              | .ok v => v
              | .error _ => 0
            let r1 := match oracle.balanceCall token1 logAddr with
              | .ok v => v
              | .error _ => 0
            finish r0 r1 [ViewCall.balance token0 logAddr,
                          ViewCall.balance token1 logAddr]
          else finish 0 0 []

/-! ## Configuration (`LoadConfig`)

The environment is the raw `os.Getenv` result for each of the seven
variables (the empty string when unset).  The library parsers
`strconv.Atoi`, `time.ParseDuration` (result in nanoseconds) and
`strconv.ParseFloat` are external collaborators, taken as parameters
returning `none` on a parse error.  A configuration error is identified
by the offending variable's name (the Go message embeds exactly that
name). -/

/-- The raw environment assignment read by `LoadConfig`. -/
structure EnvAssignment where
  blockQueueSize : String
  sqlitePath : String
  arbReloadInterval : String
  arbMaxHops : String
  arbInitialCapital : String
  arbMinProfit : String
  arbQueueSize : String
deriving DecidableEq

/-- The `AppConfig` struct (`ArbReloadInterval` in nanoseconds). -/
structure AppConfig where
  blockQueueSize : ℤ
  sqlitePath : String
  arbReloadInterval : ℤ
  arbMaxHops : ℤ
  arbInitialCapital : ℚ
  arbMinProfit : ℚ
  arbQueueSize : ℤ
deriving DecidableEq

/-- The external library functions used by `LoadConfig`
(`strings.TrimSpace`, `strconv.Atoi`, `time.ParseDuration`,
`strconv.ParseFloat`). -/
structure EnvParsers where
  trimSpace : String → String
  atoi : String → Option ℤ
  parseDuration : String → Option ℤ
  parseFloat : String → Option ℚ

/-- The per-variable block shared by every numeric variable of
`LoadConfig`, applied to the trimmed raw value: keep the default when
unset, otherwise parse and validate; `none` is the error outcome. -/
def parseChecked (parse : String → Option α) (trimmed : String) (dflt : α)
    (bad : α → Bool) : Option α :=
  if trimmed = "" then some dflt
  else match parse trimmed with
    | none => none
    | some v => if bad v then none else some v

/-- `LoadConfig`, checking the variables in source order and failing with
the first invalid one. -/
def LoadConfig (P : EnvParsers) (env : EnvAssignment) :
    Except String AppConfig :=
  match parseChecked P.atoi (P.trimSpace env.blockQueueSize) 1000
      (fun v => decide (v ≤ 0)) with
  | none => .error "BLOCK_QUEUE_SIZE"
  | some queueSize =>
    let sqlitePath :=
      if P.trimSpace env.sqlitePath = "" then "pools.db"
      else P.trimSpace env.sqlitePath
    match parseChecked P.parseDuration (P.trimSpace env.arbReloadInterval)
        60000000000 (fun v => decide (v ≤ 0)) with
    | none => .error "ARB_RELOAD_INTERVAL"
    | some reloadInterval =>
      match parseChecked P.atoi (P.trimSpace env.arbMaxHops) 5
          (fun v => decide (v < 2)) with
      | none => .error "ARB_MAX_HOPS"
      | some maxHops =>
        match parseChecked P.parseFloat (P.trimSpace env.arbInitialCapital) 1
            (fun v => decide (v ≤ 0)) with
        | none => .error "ARB_INITIAL_CAPITAL"
        | some initialCapital =>
          match parseChecked P.parseFloat (P.trimSpace env.arbMinProfit) 0
              (fun v => decide (v < 0)) with
          | none => .error "ARB_MIN_PROFIT"
          | some minProfit =>
            match parseChecked P.atoi (P.trimSpace env.arbQueueSize) 256
                (fun v => decide (v ≤ 0)) with
            | none => .error "ARB_QUEUE_SIZE"
            | some arbQueueSize =>
              .ok { blockQueueSize := queueSize, sqlitePath := sqlitePath,
                    arbReloadInterval := reloadInterval,
                    arbMaxHops := maxHops,
                    arbInitialCapital := initialCapital,
                    arbMinProfit := minProfit,
                    arbQueueSize := arbQueueSize }

/-- A variable that is set (non-empty after trimming) and violates its
documented constraint: unparsable, or parsed but failing its bound. -/
def violated (parse : String → Option α) (trimmed : String)
    (bad : α → Bool) : Bool :=
  (trimmed != "") &&
    (match parse trimmed with
     | none => true
     | some v => bad v)

/-- The variables of `env` that are set and violate their documented
constraints, in the order `LoadConfig` checks them. -/
def violatedVars (P : EnvParsers) (env : EnvAssignment) : List String :=
  (if violated P.atoi (P.trimSpace env.blockQueueSize) (fun v => decide (v ≤ 0)) then
     ["BLOCK_QUEUE_SIZE"] else []) ++
  (if violated P.parseDuration (P.trimSpace env.arbReloadInterval) (fun v => decide (v ≤ 0)) then
     ["ARB_RELOAD_INTERVAL"] else []) ++
  (if violated P.atoi (P.trimSpace env.arbMaxHops) (fun v => decide (v < 2)) then
     ["ARB_MAX_HOPS"] else []) ++
  (if violated P.parseFloat (P.trimSpace env.arbInitialCapital) (fun v => decide (v ≤ 0)) then
     ["ARB_INITIAL_CAPITAL"] else []) ++
  (if violated P.parseFloat (P.trimSpace env.arbMinProfit) (fun v => decide (v < 0)) then
     ["ARB_MIN_PROFIT"] else []) ++
  (if violated P.atoi (P.trimSpace env.arbQueueSize) (fun v => decide (v ≤ 0)) then
     ["ARB_QUEUE_SIZE"] else [])

/-! ## Fee decode (`CallPoolFee`)

The runtime-typed ABI decoder yields one of several shapes; the unsigned
widths carry their Go values (each within its width's range), and the
`*big.Int` case carries a natural number, of which `Uint64()` keeps the
low 64 bits.  The final `float64(feeValue) / 1e4` is idealised in `ℚ`. -/

/-- A decoded ABI return value as observed by `CallPoolFee`. -/
inductive AbiValue where
  | u8 (v : ℕ)
  | u16 (v : ℕ)
  | u32 (v : ℕ)
  | u64 (v : ℕ)
  | bigInt (v : ℕ)
  | address (a : String)
deriving DecidableEq

/-- `CallPoolFee` after a successful contract call returning `raw`. -/
def CallPoolFee (raw : List AbiValue) : Except String ℚ :=
  match raw with
  | [v] =>
    match v with
    | .u8 n => .ok ((n : ℚ) / 10000)
    | .u16 n => .ok ((n : ℚ) / 10000)
    | .u32 n => .ok ((n : ℚ) / 10000)
    | .u64 n => .ok ((n : ℚ) / 10000)
    | .bigInt n => .ok (((n % 2 ^ 64 : ℕ) : ℚ) / 10000)
    | .address _ => .error "unexpected fee return type"
  | _ => .error "unexpected fee return length"

/-! ## Concrete values used by witnesses and counterexamples -/

/-- A V2-like pool with both reserves `10^21` and fee `0.30`, as in the
spec's scenario S4. -/
def s4Pool : poolDetail :=
  { address := "0xP", token0 := "0xA", token1 := "0xB", fee := 3 / 10,
    protocol := ProtocolUniswapV2Like,
    reserve0 := some (10 ^ 21), reserve1 := some (10 ^ 21) }

/-- One simulated hop through `s4Pool` from `token0`. -/
def s4Edge : graphEdge :=
  { pool := s4Pool, protocol := ProtocolUniswapV2Like, fee := 3 / 10,
    rate := clampRate (3 / 10), fromToken := "0xA", toToken := "0xB" }

/-- A fee-free pool of an unrecognised protocol (simulated by the coarse
fee-only fallback). -/
def flatPool (addr t0 t1 : String) : poolDetail :=
  { address := addr, token0 := t0, token1 := t1, fee := 0,
    protocol := "OtherSwap", reserve0 := some 1, reserve1 := some 1 }

/-- A two-hop circle through two fee-free pools, breaking exactly even. -/
def evenCircle : arbitrageCircle :=
  { route := [flatPool "0x1" "0xA" "0xB", flatPool "0x2" "0xA" "0xB"],
    path := ["0xA", "0xB", "0xA"] }

/-- A cycle that traverses one pool in both directions; the SCC-revision
enumerator emits exactly this shape as a two-hop cycle. -/
def pingPongPath : List graphEdge :=
  [{ pool := s4Pool, protocol := ProtocolUniswapV2Like, fee := 3 / 10,
     rate := clampRate (3 / 10), fromToken := "0xA", toToken := "0xB" },
   { pool := s4Pool, protocol := ProtocolUniswapV2Like, fee := 3 / 10,
     rate := clampRate (3 / 10), fromToken := "0xB", toToken := "0xA" }]

/-- An edge with alphanumeric fields only, for fingerprint witnesses. -/
def plainEdge (addr f t : String) : graphEdge :=
  { pool := { address := addr, token0 := f, token1 := t, fee := 0,
              protocol := "UniswapV2LikeSwap", reserve0 := some 1,
              reserve1 := some 1 },
    protocol := "UniswapV2LikeSwap", fee := 0, rate := 1,
    fromToken := f, toToken := t }

/-- A two-hop cycle through two distinct pools. -/
def twoPoolCycle : List graphEdge :=
  [plainEdge "0xP1" "0xA" "0xB", plainEdge "0xP2" "0xB" "0xA"]

/-- A pool with ample reserves between two named tokens, for the
enumeration counterexample. -/
def bigPool (addr t0 t1 : String) : poolDetail :=
  { address := addr, token0 := t0, token1 := t1, fee := 0,
    protocol := ProtocolUniswapV2Like,
    reserve0 := some (10 ^ 21), reserve1 := some (10 ^ 21) }

/-- Four pools: two between A and B, two between A and C.  `findArb`
started at A emits, among others, the non-simple closed walk
A→B→A→C→A. -/
def c6Pools : List poolDetail :=
  [bigPool "0x1" "0xA" "0xB", bigPool "0x2" "0xA" "0xB",
   bigPool "0x3" "0xA" "0xC", bigPool "0x4" "0xA" "0xC"]

/-- The four-hop walk through all four pools of `c6Pools`, one of the
circles `findArb` emits from start token A. -/
def c6Circle : arbitrageCircle :=
  { route := c6Pools, path := ["0xA", "0xB", "0xA", "0xC", "0xA"] }

/-- An oracle whose every view call succeeds with a fixed answer. -/
def okOracle : ChainOracle :=
  { tokenCall := fun _ _ => .ok "0xT",
    feeCall := fun _ => .ok (3 / 10),
    reservesCall := fun _ => .ok (100, 200),
    balanceCall := fun _ _ => .ok 300 }

/-- An oracle that answers token calls but fails reserve retrieval. -/
def noReservesOracle : ChainOracle :=
  { tokenCall := fun _ _ => .ok "0xT",
    feeCall := fun _ => .ok (3 / 10),
    reservesCall := fun _ => .error (),
    balanceCall := fun _ _ => .error () }

/-- The V2 descriptor from `GetProtocolsConfig`. -/
def v2Config : protocolConfig :=
  { name := ProtocolUniswapV2Like, staticFee := 3 / 10,
    feeFromContract := false, token0Method := "token0",
    token1Method := "token1", fixedToken0 := none, fixedToken1 := none,
    hasABI := true }

/-- An environment with every variable unset. -/
def emptyEnv : EnvAssignment :=
  { blockQueueSize := "", sqlitePath := "", arbReloadInterval := "",
    arbMaxHops := "", arbInitialCapital := "", arbMinProfit := "",
    arbQueueSize := "" }

/-- Simple concrete parsers standing in for the Go library functions in
witnesses (trimming is the identity on the already-trimmed inputs
used there). -/
def simpleParsers : EnvParsers :=
  { trimSpace := fun s => s,
    atoi := fun s => s.toInt?,
    parseDuration := fun s => s.toInt?,
    parseFloat := fun s => (s.toInt?).map (fun v => (v : ℚ)) }

/-- The all-defaults configuration. -/
def defaultConfig : AppConfig :=
  { blockQueueSize := 1000, sqlitePath := "pools.db",
    arbReloadInterval := 60000000000, arbMaxHops := 5,
    arbInitialCapital := 1, arbMinProfit := 0, arbQueueSize := 256 }

end Claam

namespace Claam

theorem publish_snoc (cap : ℕ) (es : List α) (e : α) :
    publishAll cap (es ++ [e]) = publish cap (publishAll cap es) e := by
  simp [publishAll, List.foldl_append]

theorem publishAll_eq_drop (cap : ℕ) (hcap : 1 ≤ cap) (es : List α) :
    publishAll cap es = es.drop (es.length - cap) := by
  induction es using List.reverseRecOn with
  | nil => simp [publishAll]
  | append_singleton es e ih =>
    rw [publish_snoc, ih, publish]
    by_cases h : es.length < cap
    · have h0 : es.length - cap = 0 := Nat.sub_eq_zero_of_le (Nat.le_of_lt h)
      have h1 : es.length + 1 - cap = 0 := Nat.sub_eq_zero_of_le h
      simp [h0, h1, List.length_drop, h]
    · push_neg at h
      have hlen : (es.drop (es.length - cap)).length = cap := by
        simp [List.length_drop]
        omega
      have hnot : ¬ (es.drop (es.length - cap)).length < cap := by omega
      rw [if_neg hnot, List.drop_drop]
      have harith : es.length - cap + 1 = es.length + 1 - cap := by omega
      have hle : es.length + 1 - cap ≤ es.length := by omega
      rw [harith, ← List.drop_append_of_le_length hle]
      simp

/-- C1: publishing `N + k` events into an empty drop-oldest queue of
capacity `N ≥ 1` (single producer, no concurrent consumer) leaves exactly
`N` events enqueued, namely the `k`-th through `(N+k-1)`-th published
events in FIFO order; the oldest `k` were discarded.  `publish` is a total
function, so the producer never blocks and there is no failure mode. -/
theorem queue_drop_oldest (N k : ℕ) (es : List α) (hN : 1 ≤ N)
    (hlen : es.length = N + k) :
    publishAll N es = es.drop k ∧ (publishAll N es).length = N := by
  have h := publishAll_eq_drop N hN es
  have hk : es.length - N = k := by omega
  rw [hk] at h
  refine ⟨h, ?_⟩
  rw [h, List.length_drop, hlen]
  omega

/-- Witness for C1 at capacity 2 and five publishes: the queue retains the
last two events. -/
theorem queue_drop_oldest_witness :
    publishAll 2 [10, 20, 30, 40, 50] = [40, 50] ∧
      (publishAll 2 [10, 20, 30, 40, 50]).length = 2 := by
  have h := queue_drop_oldest (α := ℕ) 2 3 [10, 20, 30, 40, 50]
    (by decide) (by decide)
  simpa using h

/-- C2: evaluation of the code at the failing input.  For a V2-like step
with fee `0.30`, `amount_in = 1` and reserves `10^21`/`10^21`, the code's
fee multiplier is `1000 - (0.30/100)·10 = 999.97`, although the inline
comment beside it and the spec both state that fee `0.30%` must give
`997`; consequently the simulated output differs from the documented
output `(amount_in · 997 · R_out) / (R_in · 1000 + amount_in · 997)`. -/
theorem simulateStep_fee_multiplier_bug :
    codeFeeMultiplier (3 / 10) = 99997 / 100 ∧
    specFeeMultiplier (3 / 10) = 997 ∧
    simulateStep s4Edge 1 =
      some (codeFeeMultiplier (3 / 10) * 10 ^ 21 /
        (10 ^ 21 * 1000 + codeFeeMultiplier (3 / 10))) ∧
    simulateStep s4Edge 1 ≠ some (specAmountOut (3 / 10) 1 (10 ^ 21) (10 ^ 21)) := by
  refine ⟨by norm_num [codeFeeMultiplier], by norm_num [specFeeMultiplier], ?_, ?_⟩
  · simp [simulateStep, s4Edge, s4Pool, codeFeeMultiplier]
    norm_num
  · simp [simulateStep, s4Edge, s4Pool, codeFeeMultiplier,
      specAmountOut, specFeeMultiplier]
    norm_num

/-- The profitability flag of `simulatePath` holds exactly when the path
is non-empty, every step succeeds, and the final amount clears the
threshold. -/
theorem simulatePath_snd_true_iff (i m : ℚ) (p : List graphEdge) :
    (simulatePath i p m).2 = true ↔
      p ≠ [] ∧ ∃ a, simulateSteps i p = some a ∧ m ≤ a - i := by
  unfold simulatePath
  by_cases hp : p = []
  · simp [hp]
  · cases h : simulateSteps i p <;> simp [hp, h]

/-- C3: an enumerated circle (which always has at least two pools on its
route) is published iff its fingerprint is not already in the seen-paths
set and the simulation succeeds with
`final_amount − initial_amount ≥ ARB_MIN_PROFIT`; the comparison is
non-strict, so exact equality is published and anything strictly below
the threshold is not.  The published opportunity is present exactly when
the publish flag is set. -/
theorem handleCircle_publish_iff (seen : List String)
    (circle : arbitrageCircle) (i m : ℚ) (hlen : 2 ≤ circle.route.length) :
    ((handleCircle seen circle i m).1 = true ↔
      (hashPath (circleEdges circle.route circle.path) ∉ seen ∧
        circleEdges circle.route circle.path ≠ [] ∧
        ∃ a, simulateSteps i (circleEdges circle.route circle.path) = some a ∧
          m ≤ a - i)) ∧
    ((handleCircle seen circle i m).2.2.isSome ↔
      (handleCircle seen circle i m).1 = true) := by
  have hnot : ¬ circle.route.length < 2 := by omega
  by_cases hseen : hashPath (circleEdges circle.route circle.path) ∈ seen
  · constructor
    · simp [handleCircle, hnot, hseen]
    · simp [handleCircle, hnot, hseen]
  · rcases hsim : simulatePath i (circleEdges circle.route circle.path) m with ⟨est, prof⟩
    have hflag : (handleCircle seen circle i m).1 = prof := by
      cases prof <;> simp [handleCircle, hnot, hseen, hsim]
    have hopt : (handleCircle seen circle i m).2.2.isSome = prof := by
      cases prof <;> simp [handleCircle, hnot, hseen, hsim]
    have hiff := simulatePath_snd_true_iff i m (circleEdges circle.route circle.path)
    rw [hsim] at hiff
    constructor
    · rw [hflag]
      simp only [hiff]
      tauto
    · rw [hopt, hflag]

/-- Witness for C3: a two-hop circle through fee-free pools breaks exactly
even, and at `ARB_MIN_PROFIT = 0` the exact-equality case is published. -/
theorem handleCircle_publish_iff_witness :
    (handleCircle [] evenCircle 1 0).1 = true := by
  apply (handleCircle_publish_iff [] evenCircle 1 0 (by decide)).1.mpr
  refine ⟨by simp, by decide, 1, ?_, by norm_num⟩
  have h1 : ("OtherSwap" : String) ≠ ProtocolUniswapV2Like := by decide
  have h2 : ("OtherSwap" : String) ≠ ProtocolUniswapV3 := by decide
  have h3 : ("OtherSwap" : String) ≠ ProtocolUniswapV4 := by decide
  norm_num [simulateSteps, simulateStep, circleEdges, evenCircle, flatPool,
    h1, h2, h3]

/-- C9 counterexample: a `fee()` view call whose big-integer return is
`2^64` is accepted by the decoder but stored as `0`, not as the returned
integer divided by `1e4` — `big.Int.Uint64()` keeps only the low 64
bits. -/
theorem callPoolFee_bigInt_truncates :
    CallPoolFee [AbiValue.bigInt (2 ^ 64)] = .ok 0 ∧
      ((2 : ℚ) ^ 64 / 10000 ≠ 0) := by
  constructor
  · simp [CallPoolFee]
  · norm_num

/-- C9 (amended): `CallPoolFee` accepts every unsigned width and the
big-integer shape; each width is widened exactly, while a big-integer
return is truncated to its low 64 bits, so every value below `2^64`
(in particular every value of the ABI's `uint24` fee type) yields
`value / 1e4`; `fee() = 3000` yields a stored fee of `0.30`. -/
theorem CallPoolFee_decodes :
    (∀ n : ℕ, CallPoolFee [AbiValue.u8 n] = .ok ((n : ℚ) / 10000)) ∧
    (∀ n : ℕ, CallPoolFee [AbiValue.u16 n] = .ok ((n : ℚ) / 10000)) ∧
    (∀ n : ℕ, CallPoolFee [AbiValue.u32 n] = .ok ((n : ℚ) / 10000)) ∧
    (∀ n : ℕ, CallPoolFee [AbiValue.u64 n] = .ok ((n : ℚ) / 10000)) ∧
    (∀ n : ℕ, n < 2 ^ 64 →
      CallPoolFee [AbiValue.bigInt n] = .ok ((n : ℚ) / 10000)) ∧
    CallPoolFee [AbiValue.bigInt 3000] = .ok (3 / 10) := by
  refine ⟨fun n => rfl, fun n => rfl, fun n => rfl, fun n => rfl, ?_, ?_⟩
  · intro n h
    simp only [CallPoolFee, Nat.mod_eq_of_lt h]
  · simp [CallPoolFee]
    norm_num

/-- Witness for C9 at the spec's S3 scenario: `fee()` returning the
big integer 3000 stores `0.30`. -/
theorem CallPoolFee_decodes_witness :
    3000 < 2 ^ 64 ∧ CallPoolFee [AbiValue.bigInt 3000] = .ok ((3000 : ℚ) / 10000) := by
  exact ⟨by norm_num, CallPoolFee_decodes.2.2.2.2.1 3000 (by norm_num)⟩

theorem upsert_ids_present (db : List PoolRow) (pool : poolDetail) (now : ℕ)
    (h : db.any (fun r => r.id == pool.address) = true) :
    (InsertPoolIfNotExists db pool now).map PoolRow.id = db.map PoolRow.id := by
  simp only [InsertPoolIfNotExists, h, if_true, List.map_map]
  apply List.map_congr_left
  intro row hrow
  by_cases hid : row.id = pool.address <;> simp [hid, updateRow]

theorem upsert_ids_absent (db : List PoolRow) (pool : poolDetail) (now : ℕ)
    (h : ¬ (db.any (fun r => r.id == pool.address) = true)) :
    (InsertPoolIfNotExists db pool now).map PoolRow.id =
      db.map PoolRow.id ++ [pool.address] := by
  simp [InsertPoolIfNotExists, h, newRow]

theorem upsert_any_self (db : List PoolRow) (pool : poolDetail) (now : ℕ) :
    (InsertPoolIfNotExists db pool now).any (fun r => r.id == pool.address) = true := by
  by_cases h : db.any (fun r => r.id == pool.address) = true
  · rcases List.any_eq_true.mp h with ⟨row, hrow, hbeq⟩
    have hid := beq_iff_eq.mp hbeq
    apply List.any_eq_true.mpr
    refine ⟨updateRow row pool now, ?_, by simp [updateRow, hid]⟩
    have hmap : (fun r : PoolRow =>
        if r.id = pool.address then updateRow r pool now else r) row =
        updateRow row pool now := by simp [hid]
    simp only [InsertPoolIfNotExists, h, if_true]
    rw [← hmap]
    exact List.mem_map_of_mem _ hrow
  · apply List.any_eq_true.mpr
    refine ⟨newRow pool now, ?_, beq_iff_eq.mpr (by simp only [newRow])⟩
    simp only [InsertPoolIfNotExists, h]
    simp

theorem countP_id_eq_count (db : List PoolRow) (a : String) :
    db.countP (fun r => r.id == a) = (db.map PoolRow.id).count a := by
  rw [List.count, List.countP_map]
  rfl

/-- C5 (frame and idempotence of the store upsert): for every store state
with unique addresses, upserting a pool maps each existing row as
follows — a row with the same address gets exactly `reserve0`, `reserve1`
and `updated_at` refreshed and every other field (`protocol`, `token0`,
`token1`, `fee`, `created_at`) kept, and every other row is untouched at
its position; upserting the same `poolDetail` twice leaves exactly one
row keyed by its address, and `ListPools` then reports the reserves of
the latest upsert for that address. -/
theorem InsertPoolIfNotExists_frame_idempotent (db : List PoolRow)
    (pool : poolDetail) (t1 t2 : ℕ)
    (huniq : (db.map PoolRow.id).Nodup) :
    (∀ i : ℕ, ∀ row : PoolRow, db[i]? = some row →
      (InsertPoolIfNotExists db pool t1)[i]? = some (
        if row.id = pool.address then updateRow row pool t1 else row)) ∧
    ((InsertPoolIfNotExists (InsertPoolIfNotExists db pool t1) pool t2).countP
      (fun row => row.id == pool.address) = 1) ∧
    (∃ p ∈ ListPools (InsertPoolIfNotExists (InsertPoolIfNotExists db pool t1) pool t2),
      p.address = pool.address ∧
      p.reserve0 = some (reserveValue pool.reserve0) ∧
      p.reserve1 = some (reserveValue pool.reserve1)) := by
  have hupd2 : (InsertPoolIfNotExists db pool t1).any
      (fun r => r.id == pool.address) = true := upsert_any_self db pool t1
  refine ⟨?_, ?_, ?_⟩
  · intro i row hrow
    by_cases h : db.any (fun r => r.id == pool.address) = true
    · simp only [InsertPoolIfNotExists, h, if_true]
      rw [List.getElem?_map, hrow]
      rfl
    · have hi : i < db.length := (List.getElem?_eq_some.mp hrow).1
      have hne : row.id ≠ pool.address := by
        intro heq
        exact h (List.any_eq_true.mpr
          ⟨row, List.getElem?_mem hrow, by simp [heq]⟩)
      simp only [InsertPoolIfNotExists]
      rw [if_neg h, List.getElem?_append]
      simp [hi, hrow, hne]
  · rw [countP_id_eq_count, upsert_ids_present _ pool t2 hupd2]
    by_cases h : db.any (fun r => r.id == pool.address) = true
    · rw [upsert_ids_present db pool t1 h]
      rcases List.any_eq_true.mp h with ⟨row, hrow, hbeq⟩
      exact List.count_eq_one_of_mem huniq
        (by
          have := beq_iff_eq.mp hbeq
          exact this ▸ List.mem_map_of_mem _ hrow)
    · rw [upsert_ids_absent db pool t1 h]
      have hnm : pool.address ∉ db.map PoolRow.id := by
        intro hm
        rcases List.mem_map.mp hm with ⟨row, hrow, hid⟩
        exact h (List.any_eq_true.mpr ⟨row, hrow, by simp [hid]⟩)
      rw [List.count_append]
      simp [List.count_eq_zero.mpr hnm]
  · set db1 := InsertPoolIfNotExists db pool t1 with hdb1
    rcases List.any_eq_true.mp hupd2 with ⟨row, hrow, hbeq⟩
    have hid := beq_iff_eq.mp hbeq
    refine ⟨rowToPool (updateRow row pool t2), ?_,
      by simp [rowToPool, updateRow, hid]⟩
    have hmap : (fun r : PoolRow =>
        if r.id = pool.address then updateRow r pool t2 else r) row =
        updateRow row pool t2 := by simp [hid]
    simp only [ListPools, InsertPoolIfNotExists, hupd2, if_true]
    apply List.mem_map_of_mem
    rw [← hmap]
    exact List.mem_map_of_mem _ hrow

/-- Witness for C5: upserting `s4Pool` twice into the empty store yields
exactly one row for its address. -/
theorem InsertPoolIfNotExists_frame_idempotent_witness :
    (InsertPoolIfNotExists (InsertPoolIfNotExists [] s4Pool 1) s4Pool 2).countP
      (fun row => row.id == s4Pool.address) = 1 :=
  (InsertPoolIfNotExists_frame_idempotent [] s4Pool 1 2 (by simp)).2.1

/-- C7: when the log's address is already in the known-pools set,
`inspectPool` returns not-new immediately: no contract view call is made,
no error is produced, the known-pools set is unchanged and the returned
pool detail is the zero value. -/
theorem inspectPool_known_short_circuit (oracle : ChainOracle)
    (known : List String) (logAddr : String) (cfg : protocolConfig)
    (h : logAddr ∈ known) :
    inspectPool oracle known logAddr cfg =
      { isNew := false, pool := emptyPoolDetail, err := none,
        known := known, calls := [] } := by
  simp [inspectPool, h]

/-- Witness for C7: a second sighting of a recognised address performs no
view calls. -/
theorem inspectPool_known_short_circuit_witness :
    ("0xA" : String) ∈ ["0xA"] ∧
      inspectPool okOracle ["0xA"] "0xA" v2Config =
        { isNew := false, pool := emptyPoolDetail, err := none,
          known := ["0xA"], calls := [] } :=
  ⟨by decide, inspectPool_known_short_circuit okOracle ["0xA"] "0xA" v2Config (by decide)⟩

theorem resolveToken_error_inv (oracle : ChainOracle) (a : String)
    (fx : Option String) (m : String) (cs : List ViewCall) (e : InspectErr)
    (h : resolveToken oracle a fx m = (cs, .error e)) :
    fx = none ∧ oracle.tokenCall a m = .error () := by
  unfold resolveToken at h
  cases fx with
  | some t => simp at h
  | none =>
    refine ⟨rfl, ?_⟩
    cases htc : oracle.tokenCall a m with
    | ok t => rw [htc] at h; simp at h
    | error u => rfl

theorem resolveFee_error_inv (oracle : ChainOracle) (a : String)
    (cfg : protocolConfig) (cs : List ViewCall) (e : InspectErr)
    (h : resolveFee oracle a cfg = (cs, .error e)) :
    cfg.feeFromContract = true ∧ oracle.feeCall a = .error () := by
  unfold resolveFee at h
  by_cases hf : cfg.feeFromContract
  · refine ⟨hf, ?_⟩
    rw [if_pos hf] at h
    cases hfc : oracle.feeCall a with
    | ok f => rw [hfc] at h; simp at h
    | error u => rfl
  · rw [if_neg hf] at h
    simp at h

/-- C10: `inspectPool` inserts the address into the known-pools set only
on the success path — on every error return (missing ABI, token
resolution failure, fee view-call failure) the known-pools set is
unchanged and the pool is not reported new, so the address stays eligible
for re-inspection; a reserve-retrieval failure, by contrast, does not
abort inspection: the pool is still returned as new, with zero reserves,
and the address is recorded. -/
theorem inspectPool_error_frame (oracle : ChainOracle) (known : List String)
    (logAddr : String) (cfg : protocolConfig) :
    ((inspectPool oracle known logAddr cfg).err.isSome = true →
      (inspectPool oracle known logAddr cfg).known = known ∧
      (inspectPool oracle known logAddr cfg).isNew = false) ∧
    ((inspectPool oracle known logAddr cfg).isNew = true →
      (inspectPool oracle known logAddr cfg).known = known ++ [logAddr] ∧
      (inspectPool oracle known logAddr cfg).err = none) ∧
    ((inspectPool oracle known logAddr cfg).isNew = false →
      (inspectPool oracle known logAddr cfg).known = known) ∧
    (logAddr ∉ known → cfg.hasABI = true →
      cfg.name = ProtocolUniswapV2Like →
      (∀ m, ∃ t, oracle.tokenCall logAddr m = Except.ok t) →
      cfg.feeFromContract = false →
      oracle.reservesCall logAddr = Except.error () →
      (inspectPool oracle known logAddr cfg).isNew = true ∧
      (inspectPool oracle known logAddr cfg).err = none ∧
      (inspectPool oracle known logAddr cfg).pool.reserve0 = some 0 ∧
      (inspectPool oracle known logAddr cfg).pool.reserve1 = some 0 ∧
      (inspectPool oracle known logAddr cfg).known = known ++ [logAddr]) := by
  simp only [inspectPool]
  split
  · rename_i hk
    exact ⟨by simp, by simp, by simp, fun hnk => absurd hk hnk⟩
  · rename_i hk
    split
    · rename_i habi
      refine ⟨by simp, by simp, by simp, fun _ h2 _ _ _ _ => ?_⟩
      rw [h2] at habi
      simp at habi
    · rename_i habi
      split
      · rename_i calls0 e heq0
        refine ⟨by simp, by simp, by simp, fun _ _ _ htok _ _ => ?_⟩
        rcases resolveToken_error_inv _ _ _ _ _ _ heq0 with ⟨-, hcall⟩
        rcases htok (if cfg.token0Method = "" then "token0" else cfg.token0Method) with ⟨t, ht⟩
        rw [ht] at hcall
        simp at hcall
      · rename_i calls0 tok0 heq0
        split
        · rename_i calls1 e heq1
          refine ⟨by simp, by simp, by simp, fun _ _ _ htok _ _ => ?_⟩
          rcases resolveToken_error_inv _ _ _ _ _ _ heq1 with ⟨-, hcall⟩
          rcases htok (if cfg.token1Method = "" then "token1" else cfg.token1Method) with ⟨t, ht⟩
          rw [ht] at hcall
          simp at hcall
        · rename_i calls1 tok1 heq1
          split
          · rename_i calls2 e heq2
            refine ⟨by simp, by simp, by simp, fun _ _ _ _ hfee _ => ?_⟩
            rcases resolveFee_error_inv _ _ _ _ _ heq2 with ⟨hfc, -⟩
            rw [hfee] at hfc
            simp at hfc
          · rename_i calls2 poolFee heq2
            split
            · rename_i hname
              split
              · rename_i r0 r1 heqres
                refine ⟨by simp, fun _ => ⟨rfl, rfl⟩, by simp, fun _ _ _ _ _ hres => ?_⟩
                rw [hres] at heqres
                simp at heqres
              · rename_i heqres
                exact ⟨by simp, fun _ => ⟨rfl, rfl⟩, by simp,
                  fun _ _ _ _ _ _ => ⟨rfl, rfl, rfl, rfl, rfl⟩⟩
            · rename_i hname
              split
              · rename_i hname34
                exact ⟨by simp, fun _ => ⟨rfl, rfl⟩, by simp,
                  fun _ _ hn _ _ _ => absurd hn hname⟩
              · rename_i hname34
                exact ⟨by simp, fun _ => ⟨rfl, rfl⟩, by simp,
                  fun _ _ hn _ _ _ => absurd hn hname⟩

/-- Witness for C10 at a concrete pool whose reserve call fails: the pool
is still recorded as new with zero reserves. -/
theorem inspectPool_error_frame_witness :
    (inspectPool noReservesOracle [] "0xA" v2Config).isNew = true ∧
      (inspectPool noReservesOracle [] "0xA" v2Config).err = none ∧
      (inspectPool noReservesOracle [] "0xA" v2Config).pool.reserve0 = some 0 ∧
      (inspectPool noReservesOracle [] "0xA" v2Config).pool.reserve1 = some 0 ∧
      (inspectPool noReservesOracle [] "0xA" v2Config).known = [] ++ ["0xA"] :=
  (inspectPool_error_frame noReservesOracle [] "0xA" v2Config).2.2.2
    (by simp) rfl rfl (fun m => ⟨"0xT", rfl⟩) rfl rfl

theorem parseChecked_none_iff (parse : String → Option α) (trimmed : String)
    (dflt : α) (bad : α → Bool) :
    parseChecked parse trimmed dflt bad = none ↔
      violated parse trimmed bad = true := by
  unfold parseChecked violated
  by_cases h : trimmed = ""
  · simp [h]
  · cases hp : parse trimmed with
    | none => simp [h, hp]
    | some v => by_cases hb : bad v = true <;> simp [h, hp, hb]

theorem violated_false_of_some (parse : String → Option α) (trimmed : String)
    (dflt : α) (bad : α → Bool) (v : α)
    (h : parseChecked parse trimmed dflt bad = some v) :
    violated parse trimmed bad = false := by
  by_cases hb : violated parse trimmed bad = true
  · rw [← parseChecked_none_iff parse trimmed dflt bad] at hb
    rw [hb] at h
    simp at h
  · exact eq_false_of_ne_true hb

theorem parseChecked_empty (parse : String → Option α) (trimmed : String)
    (dflt : α) (bad : α → Bool) (h : trimmed = "") :
    parseChecked parse trimmed dflt bad = some dflt := by
  simp [parseChecked, h]

/-- C8: `LoadConfig` returns an error exactly when some set (non-empty
after trimming) variable violates its documented constraint —
`BLOCK_QUEUE_SIZE` or `ARB_QUEUE_SIZE` non-positive or unparsable,
`ARB_RELOAD_INTERVAL` unparsable or non-positive, `ARB_MAX_HOPS` below 2
or unparsable, `ARB_INITIAL_CAPITAL` non-positive or unparsable,
`ARB_MIN_PROFIT` negative or unparsable — the error names the first such
variable in check order, and on success every unset variable takes its
default (1000, `pools.db`, 60 s, 5, 1.0, 0.0, 256). -/
theorem LoadConfig_env_spec (P : EnvParsers) (env : EnvAssignment) :
    ((∃ e, LoadConfig P env = .error e) ↔ violatedVars P env ≠ []) ∧
    (∀ e, LoadConfig P env = .error e →
      (violatedVars P env).head? = some e) ∧
    (∀ cfg, LoadConfig P env = .ok cfg →
      violatedVars P env = [] ∧
      (P.trimSpace env.blockQueueSize = "" → cfg.blockQueueSize = 1000) ∧
      (P.trimSpace env.sqlitePath = "" → cfg.sqlitePath = "pools.db") ∧
      (P.trimSpace env.arbReloadInterval = "" →
        cfg.arbReloadInterval = 60000000000) ∧
      (P.trimSpace env.arbMaxHops = "" → cfg.arbMaxHops = 5) ∧
      (P.trimSpace env.arbInitialCapital = "" → cfg.arbInitialCapital = 1) ∧
      (P.trimSpace env.arbMinProfit = "" → cfg.arbMinProfit = 0) ∧
      (P.trimSpace env.arbQueueSize = "" → cfg.arbQueueSize = 256)) := by
  rcases h1 : parseChecked P.atoi (P.trimSpace env.blockQueueSize) 1000
      (fun v => decide (v ≤ 0)) with _ | q1
  · have hv1 := (parseChecked_none_iff _ _ _ _).mp h1
    have hLC : LoadConfig P env = .error "BLOCK_QUEUE_SIZE" := by
      simp [LoadConfig, h1]
    refine ⟨⟨fun _ => by simp [violatedVars, hv1], fun _ => ⟨_, hLC⟩⟩, ?_, ?_⟩
    · intro e he
      rw [hLC] at he
      injection he with he
      subst he
      simp [violatedVars, hv1]
    · intro cfg hcfg
      rw [hLC] at hcfg
      simp at hcfg
  · have hv1 := violated_false_of_some _ _ _ _ _ h1
    rcases h2 : parseChecked P.parseDuration (P.trimSpace env.arbReloadInterval)
        60000000000 (fun v => decide (v ≤ 0)) with _ | q2
    · have hv2 := (parseChecked_none_iff _ _ _ _).mp h2
      have hLC : LoadConfig P env = .error "ARB_RELOAD_INTERVAL" := by
        simp [LoadConfig, h1, h2]
      refine ⟨⟨fun _ => by simp [violatedVars, hv1, hv2], fun _ => ⟨_, hLC⟩⟩, ?_, ?_⟩
      · intro e he
        rw [hLC] at he
        injection he with he
        subst he
        simp [violatedVars, hv1, hv2]
      · intro cfg hcfg
        rw [hLC] at hcfg
        simp at hcfg
    · have hv2 := violated_false_of_some _ _ _ _ _ h2
      rcases h3 : parseChecked P.atoi (P.trimSpace env.arbMaxHops) 5
          (fun v => decide (v < 2)) with _ | q3
      · have hv3 := (parseChecked_none_iff _ _ _ _).mp h3
        have hLC : LoadConfig P env = .error "ARB_MAX_HOPS" := by
          simp [LoadConfig, h1, h2, h3]
        refine ⟨⟨fun _ => by simp [violatedVars, hv1, hv2, hv3], fun _ => ⟨_, hLC⟩⟩, ?_, ?_⟩
        · intro e he
          rw [hLC] at he
          injection he with he
          subst he
          simp [violatedVars, hv1, hv2, hv3]
        · intro cfg hcfg
          rw [hLC] at hcfg
          simp at hcfg
      · have hv3 := violated_false_of_some _ _ _ _ _ h3
        rcases h4 : parseChecked P.parseFloat (P.trimSpace env.arbInitialCapital) 1
            (fun v => decide (v ≤ 0)) with _ | q4
        · have hv4 := (parseChecked_none_iff _ _ _ _).mp h4
          have hLC : LoadConfig P env = .error "ARB_INITIAL_CAPITAL" := by
            simp [LoadConfig, h1, h2, h3, h4]
          refine ⟨⟨fun _ => by simp [violatedVars, hv1, hv2, hv3, hv4],
            fun _ => ⟨_, hLC⟩⟩, ?_, ?_⟩
          · intro e he
            rw [hLC] at he
            injection he with he
            subst he
            simp [violatedVars, hv1, hv2, hv3, hv4]
          · intro cfg hcfg
            rw [hLC] at hcfg
            simp at hcfg
        · have hv4 := violated_false_of_some _ _ _ _ _ h4
          rcases h5 : parseChecked P.parseFloat (P.trimSpace env.arbMinProfit) 0
              (fun v => decide (v < 0)) with _ | q5
          · have hv5 := (parseChecked_none_iff _ _ _ _).mp h5
            have hLC : LoadConfig P env = .error "ARB_MIN_PROFIT" := by
              simp [LoadConfig, h1, h2, h3, h4, h5]
            refine ⟨⟨fun _ => by simp [violatedVars, hv1, hv2, hv3, hv4, hv5],
              fun _ => ⟨_, hLC⟩⟩, ?_, ?_⟩
            · intro e he
              rw [hLC] at he
              injection he with he
              subst he
              simp [violatedVars, hv1, hv2, hv3, hv4, hv5]
            · intro cfg hcfg
              rw [hLC] at hcfg
              simp at hcfg
          · have hv5 := violated_false_of_some _ _ _ _ _ h5
            rcases h6 : parseChecked P.atoi (P.trimSpace env.arbQueueSize) 256
                (fun v => decide (v ≤ 0)) with _ | q6
            · have hv6 := (parseChecked_none_iff _ _ _ _).mp h6
              have hLC : LoadConfig P env = .error "ARB_QUEUE_SIZE" := by
                simp [LoadConfig, h1, h2, h3, h4, h5, h6]
              refine ⟨⟨fun _ => by simp [violatedVars, hv1, hv2, hv3, hv4, hv5, hv6],
                fun _ => ⟨_, hLC⟩⟩, ?_, ?_⟩
              · intro e he
                rw [hLC] at he
                injection he with he
                subst he
                simp [violatedVars, hv1, hv2, hv3, hv4, hv5, hv6]
              · intro cfg hcfg
                rw [hLC] at hcfg
                simp at hcfg
            · have hv6 := violated_false_of_some _ _ _ _ _ h6
              have hLC : LoadConfig P env = .ok
                  { blockQueueSize := q1,
                    sqlitePath := if P.trimSpace env.sqlitePath = "" then "pools.db"
                      else P.trimSpace env.sqlitePath,
                    arbReloadInterval := q2, arbMaxHops := q3,
                    arbInitialCapital := q4, arbMinProfit := q5,
                    arbQueueSize := q6 } := by
                simp [LoadConfig, h1, h2, h3, h4, h5, h6]
              have hvempty : violatedVars P env = [] := by
                simp [violatedVars, hv1, hv2, hv3, hv4, hv5, hv6]
              refine ⟨⟨fun he => ?_, fun hne => absurd hvempty hne⟩, ?_, ?_⟩
              · rcases he with ⟨e, he⟩
                rw [hLC] at he
                simp at he
              · intro e he
                rw [hLC] at he
                simp at he
              · intro cfg hcfg
                rw [hLC] at hcfg
                injection hcfg with hcfg
                subst hcfg
                refine ⟨hvempty, ?_, ?_, ?_, ?_, ?_, ?_, ?_⟩
                · intro ht
                  have := parseChecked_empty P.atoi _ 1000
                    (fun v => decide (v ≤ 0)) ht
                  rw [this] at h1
                  injection h1 with h1
                  simp [h1]
                · intro ht
                  simp [ht]
                · intro ht
                  have := parseChecked_empty P.parseDuration _ 60000000000
                    (fun v => decide (v ≤ 0)) ht
                  rw [this] at h2
                  injection h2 with h2
                  simp [h2]
                · intro ht
                  have := parseChecked_empty P.atoi _ 5
                    (fun v => decide (v < 2)) ht
                  rw [this] at h3
                  injection h3 with h3
                  simp [h3]
                · intro ht
                  have := parseChecked_empty P.parseFloat _ 1
                    (fun v => decide (v ≤ 0)) ht
                  rw [this] at h4
                  injection h4 with h4
                  simp [h4]
                · intro ht
                  have := parseChecked_empty P.parseFloat _ 0
                    (fun v => decide (v < 0)) ht
                  rw [this] at h5
                  injection h5 with h5
                  simp [h5]
                · intro ht
                  have := parseChecked_empty P.atoi _ 256
                    (fun v => decide (v ≤ 0)) ht
                  rw [this] at h6
                  injection h6 with h6
                  simp [h6]

/-- Witness for C8: with every variable unset, loading succeeds and every
field takes its default. -/
theorem LoadConfig_env_spec_witness :
    violatedVars simpleParsers emptyEnv = [] ∧
      (simpleParsers.trimSpace emptyEnv.blockQueueSize = "" →
        defaultConfig.blockQueueSize = 1000) ∧
      (simpleParsers.trimSpace emptyEnv.sqlitePath = "" →
        defaultConfig.sqlitePath = "pools.db") ∧
      (simpleParsers.trimSpace emptyEnv.arbReloadInterval = "" →
        defaultConfig.arbReloadInterval = 60000000000) ∧
      (simpleParsers.trimSpace emptyEnv.arbMaxHops = "" →
        defaultConfig.arbMaxHops = 5) ∧
      (simpleParsers.trimSpace emptyEnv.arbInitialCapital = "" →
        defaultConfig.arbInitialCapital = 1) ∧
      (simpleParsers.trimSpace emptyEnv.arbMinProfit = "" →
        defaultConfig.arbMinProfit = 0) ∧
      (simpleParsers.trimSpace emptyEnv.arbQueueSize = "" →
        defaultConfig.arbQueueSize = 256) :=
  (LoadConfig_env_spec simpleParsers emptyEnv).2.2 defaultConfig rfl

theorem splitAtSep (c : Char) :
    ∀ (a1 a2 r1 r2 : List Char), c ∉ a1 → c ∉ a2 →
      a1 ++ c :: r1 = a2 ++ c :: r2 → a1 = a2 ∧ r1 = r2 := by
  intro a1
  induction a1 with
  | nil =>
    intro a2 r1 r2 h1 h2 heq
    cases a2 with
    | nil => simpa using heq
    | cons b bs =>
      simp only [List.nil_append, List.cons_append, List.cons.injEq] at heq
      exact absurd (heq.1 ▸ List.mem_cons_self b bs) h2
  | cons a as ih =>
    intro a2 r1 r2 h1 h2 heq
    cases a2 with
    | nil =>
      simp only [List.nil_append, List.cons_append, List.cons.injEq] at heq
      exact absurd (heq.1 ▸ List.mem_cons_self a as) h1
    | cons b bs =>
      simp only [List.cons_append, List.cons.injEq] at heq
      have h1' : c ∉ as := fun hm => h1 (List.mem_cons_of_mem a hm)
      have h2' : c ∉ bs := fun hm => h2 (List.mem_cons_of_mem b hm)
      obtain ⟨hab, hrest⟩ := ih bs r1 r2 h1' h2' heq.2
      exact ⟨by rw [heq.1, hab], hrest⟩

theorem hashItem_data (e : graphEdge) :
    (hashItem e).data =
      e.protocol.data ++ ':' :: (e.pool.address.data ++ ':' ::
        (e.fromToken.data ++ '-' :: '>' :: e.toToken.data)) := by
  have hc : (":" : String).data = [':'] := rfl
  have ha : ("->" : String).data = ['-', '>'] := rfl
  simp [hashItem, String.data_append, hc, ha]

theorem plainField_spec (s : String) (h : plainField s = true) :
    (':' : Char) ∉ s.data ∧ ('-' : Char) ∉ s.data ∧
      ('>' : Char) ∉ s.data ∧ ('|' : Char) ∉ s.data := by
  unfold plainField at h
  rw [List.all_eq_true] at h
  refine ⟨fun hm => ?_, fun hm => ?_, fun hm => ?_, fun hm => ?_⟩ <;>
    · have hx := h _ hm
      simp at hx

theorem hashItem_inj (e1 e2 : graphEdge)
    (h1p : plainField e1.protocol = true)
    (h1a : plainField e1.pool.address = true)
    (h1f : plainField e1.fromToken = true)
    (h2p : plainField e2.protocol = true)
    (h2a : plainField e2.pool.address = true)
    (h2f : plainField e2.fromToken = true)
    (heq : hashItem e1 = hashItem e2) :
    e1.protocol = e2.protocol ∧ e1.pool.address = e2.pool.address ∧
      e1.fromToken = e2.fromToken ∧ e1.toToken = e2.toToken := by
  have hd := congrArg String.data heq
  rw [hashItem_data, hashItem_data] at hd
  obtain ⟨hp, hd⟩ := splitAtSep ':' _ _ _ _
    (plainField_spec _ h1p).1 (plainField_spec _ h2p).1 hd
  obtain ⟨ha, hd⟩ := splitAtSep ':' _ _ _ _
    (plainField_spec _ h1a).1 (plainField_spec _ h2a).1 hd
  obtain ⟨hf, hd⟩ := splitAtSep '-' _ _ _ _
    (plainField_spec _ h1f).2.1 (plainField_spec _ h2f).2.1 hd
  have ht : e1.toToken.data = e2.toToken.data := by
    simpa using hd
  exact ⟨String.ext hp, String.ext ha, String.ext hf, String.ext ht⟩

theorem hashItem_no_bar (e : graphEdge)
    (hp : plainField e.protocol = true)
    (ha : plainField e.pool.address = true)
    (hf : plainField e.fromToken = true)
    (ht : plainField e.toToken = true) :
    ('|' : Char) ∉ (hashItem e).data := by
  rw [hashItem_data]
  intro hm
  simp only [List.mem_append, List.mem_cons] at hm
  rcases hm with h | h | h | h | h | h | h | h
  · exact (plainField_spec _ hp).2.2.2 h
  · simp at h
  · exact (plainField_spec _ ha).2.2.2 h
  · simp at h
  · exact (plainField_spec _ hf).2.2.2 h
  · simp at h
  · simp at h
  · exact (plainField_spec _ ht).2.2.2 h

theorem joinBar_data_cons (a : String) (l : List String) (h : l ≠ []) :
    (joinBar (a :: l)).data = a.data ++ '|' :: (joinBar l).data := by
  cases l with
  | nil => exact absurd rfl h
  | cons b m =>
    have hb : ("|" : String).data = ['|'] := rfl
    show ((a ++ "|" ++ joinBar (b :: m)).data = _)
    simp [String.data_append, hb]

theorem joinBar_inj : ∀ (l1 l2 : List String), l1.length = l2.length →
    (∀ s ∈ l1, ('|' : Char) ∉ s.data) →
    (∀ s ∈ l2, ('|' : Char) ∉ s.data) →
    joinBar l1 = joinBar l2 → l1 = l2 := by
  intro l1
  induction l1 with
  | nil =>
    intro l2 hlen _ _ _
    cases l2 with
    | nil => rfl
    | cons b m => simp at hlen
  | cons a l ih =>
    intro l2 hlen hb1 hb2 heq
    cases l2 with
    | nil => simp at hlen
    | cons b m =>
      cases l with
      | nil =>
        cases m with
        | nil =>
          have : a = b := heq
          rw [this]
        | cons b2 m' => simp at hlen
      | cons a2 l' =>
        cases m with
        | nil => simp at hlen
        | cons b2 m' =>
          have hd := congrArg String.data heq
          rw [joinBar_data_cons a _ (by simp),
            joinBar_data_cons b _ (by simp)] at hd
          obtain ⟨hab, hrest⟩ := splitAtSep '|' _ _ _ _
            (hb1 a (by simp)) (hb2 b (by simp)) hd
          have hjoin : joinBar (a2 :: l') = joinBar (b2 :: m') :=
            String.ext hrest
          have htail := ih (b2 :: m') (by simpa using hlen)
            (fun s hs => hb1 s (List.mem_cons_of_mem a hs))
            (fun s hs => hb2 s (List.mem_cons_of_mem b hs)) hjoin
          rw [String.ext hab, htail]

theorem sortStrings_length (l : List String) :
    (sortStrings l).length = l.length := by
  unfold sortStrings
  rw [Multiset.length_sort]
  exact Multiset.coe_card l

theorem sortStrings_mem (s : String) (l : List String) :
    s ∈ sortStrings l ↔ s ∈ l := by
  unfold sortStrings
  rw [Multiset.mem_sort]
  exact Multiset.mem_coe

theorem sortStrings_perm_eq (l1 l2 : List String) (h : List.Perm l1 l2) :
    sortStrings l1 = sortStrings l2 := by
  unfold sortStrings
  rw [Multiset.coe_eq_coe.mpr h]

theorem sortStrings_eq_multiset (l1 l2 : List String)
    (h : sortStrings l1 = sortStrings l2) :
    (l1 : Multiset String) = (l2 : Multiset String) := by
  have h1 := Multiset.sort_eq (fun a b : String => a ≤ b) (l1 : Multiset String)
  have h2 := Multiset.sort_eq (fun a b : String => a ≤ b) (l2 : Multiset String)
  rw [← h1, ← h2]
  exact congrArg (fun l : List String => (l : Multiset String)) h

/-- C4 (amended): two cycles traversing the same multiset of
`(protocol, pool address, from, to)` quadruples get the same
fingerprint — in particular under rotation of the cycle; and a
cycle whose edges carry fields from the program's value domain (protocol
names and hex address renderings, free of the separator characters), with
pairwise distinct pool addresses and a proper direction on every edge
(`from ≠ to`), gets a different fingerprint when traversed in reverse.
The direction clause fails without the distinct-address proviso: a cycle
that traverses one pool in both directions is its own reverse. -/
theorem hashPath_canonical :
    (∀ p q : List graphEdge, List.Perm (p.map edgeKey) (q.map edgeKey) →
      hashPath p = hashPath q) ∧
    (∀ (p : List graphEdge) (n : ℕ), hashPath (p.rotate n) = hashPath p) ∧
    (∀ p : List graphEdge, p ≠ [] →
      (∀ e ∈ p, plainField e.protocol = true ∧
        plainField e.pool.address = true ∧
        plainField e.fromToken = true ∧ plainField e.toToken = true) →
      (List.map (fun e : graphEdge => e.pool.address) p).Nodup →
      (∀ e ∈ p, e.fromToken ≠ e.toToken) →
      hashPath (reversePath p) ≠ hashPath p) := by
  have hkey : ∀ l : List graphEdge, l.map hashItem = (l.map edgeKey).map keyItem := by
    intro l
    rw [List.map_map]
    rfl
  have hperm : ∀ p q : List graphEdge,
      List.Perm (p.map edgeKey) (q.map edgeKey) → hashPath p = hashPath q := by
    intro p q hpq
    have hlen : p.length = q.length := by simpa using hpq.length_eq
    by_cases hp : p = []
    · subst hp
      have hq : q = [] := by
        cases q with
        | nil => rfl
        | cons b m => simp at hlen
      rw [hq]
    · have hq : q ≠ [] := by
        intro h
        rw [h] at hlen
        exact hp (List.length_eq_zero.mp hlen)
      have hitems : List.Perm (p.map hashItem) (q.map hashItem) := by
        rw [hkey p, hkey q]
        exact hpq.map keyItem
      unfold hashPath
      rw [if_neg hp, if_neg hq, sortStrings_perm_eq _ _ hitems]
  refine ⟨hperm, fun p n =>
    hperm _ _ ((List.rotate_perm p n).map edgeKey), ?_⟩
  intro p hne hplain hnodup hdir heq
  have hrevne : reversePath p ≠ [] := by
    simp [reversePath, hne]
  unfold hashPath at heq
  rw [if_neg hrevne, if_neg hne] at heq
  have hplainrev : ∀ e ∈ reversePath p, plainField e.protocol = true ∧
      plainField e.pool.address = true ∧ plainField e.fromToken = true ∧
      plainField e.toToken = true := by
    intro e hmem
    rw [reversePath, List.mem_reverse] at hmem
    rcases List.mem_map.mp hmem with ⟨e0, he0, rfl⟩
    rcases hplain e0 he0 with ⟨p1, p2, p3, p4⟩
    exact ⟨p1, p2, p4, p3⟩
  have hbar : ∀ (l : List graphEdge),
      (∀ e ∈ l, plainField e.protocol = true ∧
        plainField e.pool.address = true ∧ plainField e.fromToken = true ∧
        plainField e.toToken = true) →
      ∀ s ∈ sortStrings (l.map hashItem), ('|' : Char) ∉ s.data := by
    intro l hl s hs
    rcases List.mem_map.mp ((sortStrings_mem s _).mp hs) with ⟨e, he, rfl⟩
    rcases hl e he with ⟨q1, q2, q3, q4⟩
    exact hashItem_no_bar e q1 q2 q3 q4
  have hlen : (sortStrings ((reversePath p).map hashItem)).length =
      (sortStrings (p.map hashItem)).length := by
    rw [sortStrings_length, sortStrings_length, List.length_map,
      List.length_map, reversePath, List.length_reverse, List.length_map]
  have hsorted := joinBar_inj _ _ hlen
    (hbar _ hplainrev) (hbar _ hplain) heq
  have hms := sortStrings_eq_multiset _ _ hsorted
  rcases List.exists_mem_of_ne_nil p hne with ⟨e, he⟩
  have hmemrev : hashItem (reverseEdge e) ∈ (reversePath p).map hashItem := by
    apply List.mem_map_of_mem
    rw [reversePath, List.mem_reverse]
    exact List.mem_map_of_mem reverseEdge he
  have hmemfwd : hashItem (reverseEdge e) ∈ p.map hashItem := by
    rw [← Multiset.mem_coe, ← hms, Multiset.mem_coe]
    exact hmemrev
  rcases List.mem_map.mp hmemfwd with ⟨e2, he2, heqitem⟩
  rcases hplain e he with ⟨p1, p2, p3, p4⟩
  rcases hplain e2 he2 with ⟨q1, q2, q3, q4⟩
  have hinj := hashItem_inj (reverseEdge e) e2 p1 p2 p4 q1 q2 q3 heqitem.symm
  have haddr : e.pool.address = e2.pool.address := hinj.2.1
  have hee2 : e = e2 :=
    List.inj_on_of_nodup_map hnodup he he2 haddr
  have hfrom : e.toToken = e2.fromToken := hinj.2.2.1
  rw [← hee2] at hfrom
  exact hdir e he hfrom.symm

/-- Witness for C4: the two-hop cycle through two distinct pools has its
fingerprint changed by reversal, and rotation leaves it unchanged. -/
theorem hashPath_canonical_witness :
    hashPath (twoPoolCycle.rotate 1) = hashPath twoPoolCycle ∧
      hashPath (reversePath twoPoolCycle) ≠ hashPath twoPoolCycle :=
  ⟨hashPath_canonical.2.1 twoPoolCycle 1,
    hashPath_canonical.2.2 twoPoolCycle (by decide) (by decide) (by decide)
      (by decide)⟩

/-- C4 counterexample: a cycle that traverses one pool in both directions
(the shape the SCC-revision enumerator emits for every two-hop cycle) is
its own reverse traversal, so the reverse direction produces the SAME
fingerprint, contradicting the claim that reversal always changes it. -/
theorem hashPath_reverse_counterexample :
    reversePath pingPongPath = pingPongPath ∧
      hashPath (reversePath pingPongPath) = hashPath pingPongPath := by
  have h : reversePath pingPongPath = pingPongPath := rfl
  exact ⟨h, congrArg hashPath h⟩

theorem head?_append_some (l1 l2 : List α) (a : α) (h : l1.head? = some a) :
    (l1 ++ l2).head? = some a := by
  cases l1 with
  | nil => simp at h
  | cons x xs => simpa using h

theorem removals_mem : ∀ (l : List α) (pr : α × List α), pr ∈ removals l →
    ∃ l1 l2, l = l1 ++ pr.1 :: l2 ∧ pr.2 = l1 ++ l2 := by
  intro l
  induction l with
  | nil => intro pr h; simp [removals] at h
  | cons a rest ih =>
    intro pr h
    rw [removals] at h
    rcases List.mem_cons.mp h with h | h
    · subst h
      exact ⟨[], rest, rfl, rfl⟩
    · rcases List.mem_map.mp h with ⟨pr0, hpr0, rfl⟩
      rcases ih pr0 hpr0 with ⟨l1, l2, hl, hr⟩
      exact ⟨a :: l1, l2, by simp [hl], by simp [hr]⟩

theorem stepsConsistent_snoc :
    ∀ (cur : List poolDetail) (path : List String) (pair : poolDetail)
      (tIn : String),
      stepsConsistent cur path = true →
      path.getLast? = some tIn →
      (pair.token0 = tIn ∨ pair.token1 = tIn) →
      stepsConsistent (cur ++ [pair])
        (path ++ [if tIn = pair.token0 then pair.token1 else pair.token0]) = true := by
  intro cur
  induction cur with
  | nil =>
    intro path pair tIn hsc hlast hcont
    cases path with
    | nil => simp [stepsConsistent] at hsc
    | cons t rest =>
      cases rest with
      | nil =>
        have htIn : t = tIn := by simpa using hlast
        subst htIn
        rcases hcont with h | h <;> simp [stepsConsistent, h]
      | cons t2 ts => simp [stepsConsistent] at hsc
  | cons p cur' ih =>
    intro path pair tIn hsc hlast hcont
    cases path with
    | nil => simp [stepsConsistent] at hsc
    | cons t1 rest =>
      cases rest with
      | nil => simp [stepsConsistent] at hsc
      | cons t2 ts =>
        simp only [stepsConsistent, Bool.and_eq_true] at hsc
        obtain ⟨⟨hc1, hc2⟩, hrec⟩ := hsc
        have hlast2 : (t2 :: ts).getLast? = some tIn := by
          rw [List.getLast?_cons_cons] at hlast
          exact hlast
        have htail := ih (t2 :: ts) pair tIn hrec hlast2 hcont
        simp only [List.cons_append, stepsConsistent, Bool.and_eq_true]
        refine ⟨⟨hc1, hc2⟩, ?_⟩
        simpa using htail

theorem findArbGo_sound (tokenOut : String) (m0 : ℤ) :
    ∀ (fuel : ℕ) (pairs : List poolDetail) (tokenIn : String)
      (maxHops : ℤ) (cur : List poolDetail) (path : List String),
      fuel = pairs.length →
      path.length = cur.length + 1 →
      path.head? = some tokenOut →
      path.getLast? = some tokenIn →
      maxHops + (cur.length : ℤ) = m0 →
      1 ≤ maxHops →
      pairs.Nodup →
      cur.Nodup →
      (∀ p ∈ cur, p ∉ pairs) →
      (∀ p ∈ cur, reservesAboveFloor p = true) →
      stepsConsistent cur path = true →
      ∀ c ∈ findArbGo fuel pairs tokenIn tokenOut maxHops cur path,
        c.path.head? = some tokenOut ∧
        c.path.getLast? = some tokenOut ∧
        c.route.Nodup ∧
        3 ≤ c.route.length ∧
        (c.route.length : ℤ) ≤ m0 ∧
        c.path.length = c.route.length + 1 ∧
        (∀ p ∈ c.route, reservesAboveFloor p = true) ∧
        stepsConsistent c.route c.path = true := by
  intro fuel
  induction fuel with
  | zero =>
    intro pairs tokenIn maxHops cur path _ _ _ _ _ _ _ _ _ _ _ c hc
    simp [findArbGo] at hc
  | succ fuel ih =>
    intro pairs tokenIn maxHops cur path hfuel hlen hhead hlast hm0 hmax
      hnodup hcurnodup hdisj hres hsteps c hc
    rw [findArbGo] at hc
    rcases List.mem_flatMap.mp hc with ⟨pr, hprmem, hc⟩
    obtain ⟨pair, rest⟩ := pr
    rcases removals_mem pairs (pair, rest) hprmem with ⟨l1, l2, hpl, hrl⟩
    simp only at hpl hrl
    have hpairmem : pair ∈ pairs := by rw [hpl]; simp
    have hrestsub : ∀ a, a ∈ rest → a ∈ pairs := by
      intro a ha
      rw [hrl] at ha
      rw [hpl]
      rcases List.mem_append.mp ha with h | h
      · exact List.mem_append.mpr (Or.inl h)
      · exact List.mem_append.mpr (Or.inr (List.mem_cons_of_mem _ h))
    have hmid : (pair :: (l1 ++ l2)).Nodup := by
      rw [← List.nodup_middle, ← hpl]
      exact hnodup
    have hrestnodup : rest.Nodup := by
      rw [hrl]
      exact hmid.of_cons
    have hpairrest : pair ∉ rest := by
      rw [hrl]
      exact (List.nodup_cons.mp hmid).1
    have hrestlen : fuel = rest.length := by
      have h1 : pairs.length = l1.length + l2.length + 1 := by simp [hpl]; omega
      have h2 : rest.length = l1.length + l2.length := by simp [hrl]
      omega
    have hpairnotcur : pair ∉ cur := fun hmem => hdisj pair hmem hpairmem
    have hnewnodup : (cur ++ [pair]).Nodup := by
      rw [List.nodup_append]
      exact ⟨hcurnodup, List.nodup_singleton pair,
        fun a ha hb => hpairnotcur ((List.mem_singleton.mp hb) ▸ ha)⟩
    simp only at hc
    by_cases hcont : pair.token0 ≠ tokenIn ∧ pair.token1 ≠ tokenIn
    · simp [hcont] at hc
    · by_cases hresf : reservesAboveFloor pair = false
      · simp [hcont, hresf] at hc
      · have hres2 : reservesAboveFloor pair = true := by
          revert hresf
          cases reservesAboveFloor pair <;> simp
        have hcontains : pair.token0 = tokenIn ∨ pair.token1 = tokenIn := by
          rcases not_and_or.mp hcont with h | h
          · exact Or.inl (not_not.mp h)
          · exact Or.inr (not_not.mp h)
        have hpathne : path ≠ [] := by
          intro h
          rw [h] at hlen
          simp at hlen
        have hnewres : ∀ p ∈ cur ++ [pair], reservesAboveFloor p = true := by
          intro p hp
          rcases List.mem_append.mp hp with h | h
          · exact hres p h
          · rw [List.mem_singleton.mp h]
            exact hres2
        have hnewsteps : stepsConsistent (cur ++ [pair])
            (path ++ [if tokenIn = pair.token0 then pair.token1 else pair.token0]) = true := by
          apply stepsConsistent_snoc cur path pair tokenIn hsteps hlast hcontains
        by_cases hclose : (if tokenIn = pair.token0 then pair.token1 else pair.token0) = tokenOut ∧
            2 < path.length
        · simp [hcont, hres2, hclose] at hc
          rw [hc]
          refine ⟨?_, ?_, hnewnodup, ?_, ?_, ?_, hnewres, ?_⟩
          · exact head?_append_some path _ tokenOut hhead
          · rw [List.getLast?_concat]
          · simp only [List.length_append, List.length_singleton]
            omega
          · simp only [List.length_append, List.length_singleton]
            push_cast
            omega
          · simp [hlen]
          · rw [hclose.1] at hnewsteps
            exact hnewsteps
        · by_cases hrec : 1 < maxHops ∧ 1 < pairs.length
          · simp [hcont, hres2, hclose, hrec] at hc
            refine ih rest _ (maxHops - 1) (cur ++ [pair]) _
              hrestlen ?_ ?_ ?_ ?_ ?_ hrestnodup hnewnodup ?_ hnewres hnewsteps c hc
            · simp [hlen]
            · exact head?_append_some path _ tokenOut hhead
            · rw [List.getLast?_concat]
            · simp only [List.length_append, List.length_singleton]
              push_cast
              omega
            · omega
            · intro p hp
              rcases List.mem_append.mp hp with h | h
              · intro hinrest
                exact hdisj p h (hrestsub p hinrest)
              · rw [List.mem_singleton.mp h]
                exact hpairrest
          · simp [hcont, hres2, hclose, hrec] at hc

/-- C6 (amended): every circle the backtracking enumerator `findArb`
emits for a duplicate-free pool list is a closed directed walk through
the pool graph — it starts and ends at the start token, every hop enters
its pool at one of the pool's tokens and leaves at the other, no pool is
used more than once, the hop count lies between 3 and `ARB_MAX_HOPS`
inclusive (two-hop cycles are never emitted because emission requires
`len(path) > 2`), and every pool on the path has both reserves at or
above the dust floor of `1e18`.  Interior tokens may repeat, so the walk
need not be a simple cycle. -/
theorem findArb_emitted_cycles (pools : List poolDetail) (start : String)
    (maxHops : ℤ) (hnodup : pools.Nodup) (hm : 1 ≤ maxHops) :
    ∀ c ∈ findArb pools start start maxHops [] [start],
      c.path.head? = some start ∧
      c.path.getLast? = some start ∧
      c.route.Nodup ∧
      3 ≤ c.route.length ∧
      (c.route.length : ℤ) ≤ maxHops ∧
      c.path.length = c.route.length + 1 ∧
      (∀ p ∈ c.route, reservesAboveFloor p = true) ∧
      stepsConsistent c.route c.path = true := by
  apply findArbGo_sound start maxHops pools.length pools start maxHops [] [start]
    rfl (by simp) rfl rfl (by simp) hm hnodup List.nodup_nil
    (by simp) (by simp) rfl

/-- Witness for C6's amended claim at the four-pool example: the emitted
walk `c6Circle` is closed at the start token, reuses no pool, and has
four hops. -/
theorem findArb_emitted_cycles_witness :
    c6Circle ∈ findArb c6Pools "0xA" "0xA" 4 [] ["0xA"] ∧
      c6Circle.path.head? = some "0xA" ∧
      c6Circle.path.getLast? = some "0xA" ∧
      c6Circle.route.Nodup ∧
      3 ≤ c6Circle.route.length ∧
      (c6Circle.route.length : ℤ) ≤ 4 ∧
      c6Circle.path.length = c6Circle.route.length + 1 ∧
      stepsConsistent c6Circle.route c6Circle.path = true := by
  have h := findArb_emitted_cycles c6Pools "0xA" 4 (by decide) (by decide)
    c6Circle (by decide)
  exact ⟨by decide, h.1, h.2.1, h.2.2.1, h.2.2.2.1, h.2.2.2.2.1,
    h.2.2.2.2.2.1, h.2.2.2.2.2.2.2⟩

/-- C6 counterexample: `findArb` emits closed walks that are not simple
cycles — started at token A over two A–B pools and two A–C pools it
emits the walk A→B→A→C→A, which revisits the token A in its interior. -/
theorem findArb_emits_non_simple :
    ∃ c ∈ findArb c6Pools "0xA" "0xA" 4 [] ["0xA"],
      ¬ isSimpleCycle c.path := by
  decide

end Claam
